import Mathlib

/-
Verification of the crawling/ingestion pipeline in src/config.py
(the crawler section: DB, detect_mime, safe_name, fetch_and_process,
crawl, enqueue, and the scheduler polling loop).

Modelling conventions:
* Byte strings are `List Nat`.
* SQLite tables become Lean lists inside `DBState`; INSERT OR IGNORE on a
  primary key becomes a guarded append, SELECT ... LIMIT 1 takes the head.
* hashlib.sha256 is an external library, so the digest is a function
  parameter `sha256_bytes : List Nat → String`; no theorem depends on its
  internals, only on it being a function of the bytes.
* BeautifulSoup / trafilatura / pdfminer are external libraries; their
  results enter through the `Oracles` structure.
* The network is an input: a fetch attempt yields a `FetchResult`, where
  `failure` stands for any exception raised while fetching or reading
  (timeout, connection refused, ...), which the source catches in the
  `except` block of fetch_and_process.
* robots.allowed in the source unconditionally returns True (its loop body
  is only `continue`), so the robots gate adds no branch to the model.
-/

/-- Whitespace characters recognised by the Python regex class backslash-s
(ASCII part). -/
def isSpaceChar (c : Char) : Bool :=
  c == ' ' || c == '\t' || c == '\n' || c == '\x0d' || c == '\x0b' || c == '\x0c'

/-- Characters kept by SAFE_NAME_RE, the allow-list
a-z A-Z Cyrillic а-я А-Я 0-9 dot underscore parens hyphen whitespace. -/
def safeChar (c : Char) : Bool :=
  (97 ≤ c.toNat && c.toNat ≤ 122) ||       -- a-z
  (65 ≤ c.toNat && c.toNat ≤ 90) ||        -- A-Z
  (48 ≤ c.toNat && c.toNat ≤ 57) ||        -- 0-9
  (0x430 ≤ c.toNat && c.toNat ≤ 0x44F) ||  -- Cyrillic lowercase
  (0x410 ≤ c.toNat && c.toNat ≤ 0x42F) ||  -- Cyrillic uppercase
  c == '.' || c == '_' || c == '(' || c == ')' || c == '-' || isSpaceChar c

/-- Replace every maximal run of characters satisfying p by the single
character rep; the Bool flag records whether the previous character was in
a run.  Models re.sub with a one-character-class-plus pattern. -/
def collapseRunsAux (p : Char → Bool) (rep : Char) : Bool → List Char → List Char
  | _, [] => []
  | inRun, c :: cs =>
    if p c then
      if inRun then collapseRunsAux p rep true cs
      else rep :: collapseRunsAux p rep true cs
    else c :: collapseRunsAux p rep false cs

/-- Remove characters satisfying p from both ends; models str.strip. -/
def stripChars (p : Char → Bool) (l : List Char) : List Char :=
  ((l.dropWhile p).reverse.dropWhile p).reverse

/-- safe_name from src/config.py: collapse whitespace, replace runs of
characters outside the allow-list by an underscore, collapse underscores,
strip edge punctuation, truncate, default to "document". -/
def safe_name (s : String) (limit : Nat) : String :=
  let l1 := stripChars isSpaceChar (collapseRunsAux isSpaceChar ' ' false s.toList)
  let l2 := collapseRunsAux (fun c => !(safeChar c)) '_' false l1
  let l3 := collapseRunsAux (fun c => c == '_') '_' false l2
  let l4 := stripChars (fun c => c == '.' || c == '_' || c == '-' || c == ' ') l3
  let l5 := l4.take limit
  if l5.isEmpty then "document" else String.mk l5

/-- Lowercasing of a character list; models str.lower (ASCII range). -/
def lowerList (l : List Char) : List Char :=
  l.map Char.toLower

/-- Strip whitespace from both ends; models str.strip(). -/
def trimList (l : List Char) : List Char :=
  stripChars isSpaceChar l

/-- Suffix test on character lists; models str.endswith. -/
def endsWithL (suffix : List Char) (l : List Char) : Bool :=
  List.isSuffixOf suffix l

/-- Prefix test on character lists; models str.startswith. -/
def startsWithL (pre : List Char) (l : List Char) : Bool :=
  List.isPrefixOf pre l

/-- detect_mime from src/config.py: normalise the Content-Type header (the
part before the first semicolon, trimmed, lowercased); if non-empty return
it, otherwise sniff the lowercased URL path extension. -/
def detect_mime (ct : String) (url_path : String) : String :=
  let c := lowerList (trimList (ct.data.takeWhile (fun x => x != ';')))
  if c ≠ [] then String.mk c
  else
    let p := lowerList url_path.data
    if endsWithL ".pdf".data p then "application/pdf"
    else if endsWithL ".html".data p || endsWithL ".htm".data p then "text/html"
    else if endsWithL ".txt".data p then "text/plain"
    else "application/octet-stream"

/-- Normalisation applied to the Content-Type header by detect_mime
(first line of the source function). -/
def header_norm (ct : String) : String :=
  String.mk (lowerList (trimList (ct.data.takeWhile (fun x => x != ';'))))

/-- Modelled from the spec: the file-extension sniffing fallback on the URL
path described in section 4.4 step 2, matching source lines 192-196. -/
def ext_sniff (url_path : String) : String :=
  let p := lowerList url_path.data
  if endsWithL ".pdf".data p then "application/pdf"
  else if endsWithL ".html".data p || endsWithL ".htm".data p then "text/html"
  else if endsWithL ".txt".data p then "text/plain"
  else "application/octet-stream"

/-- SAVE_AS_IS_EXT from src/config.py. -/
def save_as_is_ext : List String :=
  [".pdf", ".zip", ".gz", ".tgz", ".bz2", ".xz", ".7z", ".rar",
   ".doc", ".docx", ".ppt", ".pptx", ".xls", ".xlsx", ".epub"]

/-- Extension choice inside fetch_and_process (source lines 279-291):
prefer a recognised save-as-is extension of the lowercased URL path, else
derive one from the MIME type, defaulting to .bin. -/
def chooseExt (lower_path : List Char) (ctype : String) : String :=
  match save_as_is_ext.find? (fun e => endsWithL e.data lower_path) with
  | some e => e
  | none =>
    if startsWithL "text/html".data ctype.data then ".html"
    else if ctype = "application/pdf" then ".pdf"
    else ".bin"

/-- The parts of urllib.parse.urlparse used by the crawler: netloc and
path (query and fragment stripped). -/
structure UrlParts where
  netloc : String
  path : String
deriving DecidableEq, Repr

/-- Remainder of a character list after the first scheme separator, if
any. -/
def afterSchemeSep : List Char → Option (List Char)
  | [] => none
  | ':' :: '/' :: '/' :: rest => some rest
  | _ :: rest => afterSchemeSep rest

/-- Minimal model of urlparse for http(s) URLs: netloc is the text between
the scheme separator and the next slash, path runs from that slash up to a
question mark or hash (query and fragment are not used by the crawler). -/
def urlparse (url : String) : UrlParts :=
  match afterSchemeSep url.data with
  | none => ⟨"", String.mk (url.data.takeWhile (fun c => c != '?' && c != '#'))⟩
  | some r =>
    let netloc := r.takeWhile (fun c => c != '/')
    let tail := r.dropWhile (fun c => c != '/')
    ⟨String.mk netloc, String.mk (tail.takeWhile (fun c => c != '?' && c != '#'))⟩

/-- A row of the docs table (DB.save_doc parameters). -/
structure DocRecord where
  sha256 : String
  url : String
  domain : String
  mime : String
  bytes : Nat
  stored_path : String
  text_path : Option String
  title : Option String
deriving DecidableEq, Repr

/-- The three SQLite tables of the crawler store. -/
structure DBState where
  frontier : List (String × Int)
  visited : List String
  docs : List DocRecord
deriving DecidableEq, Repr

/-- DB.is_visited: SELECT 1 FROM visited WHERE url = ?. -/
def is_visited (db : DBState) (url : String) : Bool :=
  db.visited.any (fun v => v == url)

/-- DB.mark_visited: INSERT OR IGNORE INTO visited. -/
def mark_visited (db : DBState) (url : String) : DBState :=
  if is_visited db url then db
  else { db with visited := db.visited ++ [url] }

/-- DB.has_sha: SELECT 1 FROM docs WHERE sha256 = ?. -/
def has_sha (db : DBState) (sha : String) : Bool :=
  db.docs.any (fun r => r.sha256 == sha)

/-- DB.save_doc: INSERT OR IGNORE INTO docs keyed by sha256. -/
def save_doc (db : DBState) (rec : DocRecord) : DBState :=
  if has_sha db rec.sha256 then db
  else { db with docs := db.docs ++ [rec] }

/-- DB.add_to_frontier: INSERT OR IGNORE INTO frontier keyed by url.
Note it does not consult the visited table. -/
def add_to_frontier (db : DBState) (url : String) (depth : Int) : DBState :=
  if db.frontier.any (fun r => r.1 == url) then db
  else { db with frontier := db.frontier ++ [(url, depth)] }

/-- DB.pop_frontier: SELECT one row (the model takes the head, matching
rowid order for appends) and DELETE it by url. -/
def pop_frontier (db : DBState) : Option ((String × Int) × DBState) :=
  match db.frontier with
  | [] => none
  | row :: _ =>
    some (row, { db with frontier := db.frontier.filter (fun r => !(r.1 == row.1)) })

/-- Outcome of one network attempt: failure covers any exception raised by
session.get or resp.read (timeout, refused connection, TLS error, ...);
response carries the final HTTP status, the Content-Type header value and
the body bytes. -/
inductive FetchResult where
  | failure : FetchResult
  | response : Nat → String → List Nat → FetchResult
deriving DecidableEq, Repr

/-- Results produced by html/pdf libraries external to the repository:
extract_links(base_url, html), extract_title(html), html_to_text(html, url)
and pdfminer extract_text, all taken on the raw body bytes. -/
structure Oracles where
  extract_links : String → List Nat → List String
  extract_title : List Nat → Option String
  html_to_text : List Nat → String → String
  pdf_extract_text : List Nat → String

/-- Result of one fetch_and_process call: the database afterwards, the
callback state (the in-memory queue when the callback is the crawl
enqueue), the raw files written, the derived docx paths written, and the
arguments of every enqueue_cb invocation in order. -/
structure FPOut (σ : Type) where
  db : DBState
  s : σ
  raw_writes : List (String × List Nat)
  text_writes : List String
  calls : List (String × Int)
deriving DecidableEq, Repr

/-- The link-discovery loop of fetch_and_process (source lines 313-316):
for each extracted link not currently visited, call enqueue_cb with
depth - 1, threading the callback state and the database. -/
def linkLoop {σ : Type} (cb : σ → DBState → String → Int → σ × DBState) (d1 : Int) :
    List String → σ → DBState → List (String × Int) → σ × DBState × List (String × Int)
  | [], s, db, acc => (s, db, acc)
  | l :: ls, s, db, acc =>
    if is_visited db l then linkLoop cb d1 ls s db acc
    else
      let sd := cb s db l d1
      linkLoop cb d1 ls sd.1 sd.2 (acc ++ [(l, d1)])

/-- fetch_and_process from src/config.py.  The early-return branches are,
in source order: already visited; transport failure (the except block);
non-200 status; oversize body; duplicate digest.  The success branch
writes the raw file, extracts text or links depending on MIME, records the
document and marks the URL visited. -/
def fetch_and_process {σ : Type} (O : Oracles) (sha256_bytes : List Nat → String)
    (cb : σ → DBState → String → Int → σ × DBState)
    (url : String) (depth : Int) (db : DBState) (s : σ) (out_dir : String)
    (result : FetchResult) (max_doc_size : Int) : FPOut σ :=
  if is_visited db url then ⟨db, s, [], [], []⟩
  else
    let parsed := urlparse url
    let domain := parsed.netloc
    let dir_domain := out_dir ++ "/raw/" ++ domain
    let dir_text := out_dir ++ "/text/" ++ domain
    match result with
    | FetchResult.failure => ⟨mark_visited db url, s, [], [], []⟩
    | FetchResult.response status ctHeader content =>
      if status ≠ 200 then ⟨mark_visited db url, s, [], [], []⟩
      else if max_doc_size ≠ 0 ∧ (content.length : Int) > max_doc_size then
        ⟨mark_visited db url, s, [], [], []⟩
      else
        let sha := sha256_bytes content
        if has_sha db sha then ⟨mark_visited db url, s, [], [], []⟩
        else
          let ctype := detect_mime ctHeader parsed.path
          let lower_path := lowerList parsed.path.data
          let ext := chooseExt lower_path ctype
          let file_name := safe_name sha 150 ++ ext
          let raw_path := dir_domain ++ "/" ++ file_name
          if startsWithL "text/html".data ctype.data then
            let title := O.extract_title content
            let text := O.html_to_text content url
            let text_path :=
              if trimList text.data ≠ [] then some (dir_text ++ "/" ++ safe_name sha 150 ++ ".docx")
              else none
            let sdc :=
              if depth > 0 then linkLoop cb (depth - 1) (O.extract_links url content) s db []
              else (s, db, [])
            let db1 := save_doc sdc.2.1
              ⟨sha, url, domain, ctype, content.length, raw_path, text_path, title⟩
            ⟨mark_visited db1 url, sdc.1, [(raw_path, content)],
              (match text_path with | some p => [p] | none => []), sdc.2.2⟩
          else if ctype = "application/pdf" then
            let ptext := O.pdf_extract_text content
            let text_path :=
              if trimList ptext.data ≠ [] then some (dir_text ++ "/" ++ safe_name sha 150 ++ ".docx")
              else none
            let db1 := save_doc db
              ⟨sha, url, domain, ctype, content.length, raw_path, text_path, none⟩
            ⟨mark_visited db1 url, s, [(raw_path, content)],
              (match text_path with | some p => [p] | none => []), []⟩
          else
            let db1 := save_doc db
              ⟨sha, url, domain, ctype, content.length, raw_path, none, none⟩
            ⟨mark_visited db1 url, s, [(raw_path, content)], [], []⟩

/-- The enqueue closure defined inside crawl (source lines 354-359): drop
non-http URLs, skip visited URLs, otherwise insert into the durable
frontier and append to the in-memory queue. -/
def crawl_enqueue (s : List (String × Int)) (db : DBState) (url : String) (d : Int) :
    List (String × Int) × DBState :=
  if ¬ startsWithL "http".data url.data then (s, db)
  else if is_visited db url then (s, db)
  else (s ++ [(url, d)], add_to_frontier db url d)

/-- Seed loading at the start of crawl (source lines 344-345): every start
URL is inserted into the frontier at the configured depth, without any
visited check. -/
def load_seeds (db : DBState) (start_urls : List String) (depth : Int) : DBState :=
  start_urls.foldl (fun d u => add_to_frontier d u depth) db

/-- Sequential execution of the crawl loop: dequeue one unit of work from
the durable frontier and run fetch_and_process on it with the crawl
enqueue callback (the in-memory queue additions are reflected into the
frontier by crawl_enqueue itself).  This is the single-worker synchronous
semantics of the scheduler of section 4.5. -/
def seq_step (O : Oracles) (sha256_bytes : List Nat → String) (net : String → FetchResult)
    (out_dir : String) (cap : Int) (db : DBState) : DBState :=
  match pop_frontier db with
  | none => db
  | some (row, db0) =>
    (fetch_and_process O sha256_bytes crawl_enqueue row.1 row.2 db0
      ([] : List (String × Int)) out_dir (net row.1) cap).db

/-- Run the sequential crawl loop for at most fuel steps, stopping when
the frontier is exhausted. -/
def seq_run (O : Oracles) (sha256_bytes : List Nat → String) (net : String → FetchResult)
    (out_dir : String) (cap : Int) : Nat → DBState → DBState
  | 0, db => db
  | n + 1, db =>
    if db.frontier = [] then db
    else seq_run O sha256_bytes net out_dir cap n (seq_step O sha256_bytes net out_dir cap db)

/-- Links the oracle can extract for a URL from a given fetch result:
nothing on a transport failure. -/
def resLinks (O : Oracles) (u : String) : FetchResult → List String
  | FetchResult.failure => []
  | FetchResult.response _ _ body => O.extract_links u body

/-- Links a URL can contribute: the links the oracle extracts from the
body the network returns for it, nothing on a transport failure. -/
def linksOf (O : Oracles) (net : String → FetchResult) (u : String) : List String :=
  resLinks O u (net u)

/-- Termination potential of the sequential crawl: frontier size plus, for
every not-yet-visited URL of the finite universe U, the number of links
its page could contribute.  Every loop iteration strictly decreases it. -/
def crawl_phi (O : Oracles) (net : String → FetchResult) (U : List String) (db : DBState) : Nat :=
  db.frontier.length +
    ((U.filter (fun u => !(is_visited db u))).map (fun u => (linksOf O net u).length)).sum

/-- Worker status in the scheduler model: idle between queue items, or
holding one in-flight (url, depth) task between queue.get and
queue.task_done. -/
inductive WStatus where
  | idle : WStatus
  | inflight : String → Int → WStatus
deriving DecidableEq, Repr

/-- Phase of the crawl coroutine: the polling while-loop, the
queue.join() in the finally block, or returned. -/
inductive Phase where
  | looping : Phase
  | joining : Phase
  | done : Phase
deriving DecidableEq, Repr

/-- State of the concurrent scheduler of crawl (source lines 352-401). -/
structure SchedState where
  db : DBState
  queue : List (String × Int)
  workers : List WStatus
  phase : Phase
deriving DecidableEq, Repr

/-- Interleaving events of the crawl scheduler: a worker takes a queue
item, a worker finishes its in-flight task (running fetch_and_process with
the crawl enqueue callback), the feeder loop runs one poll iteration, or
queue.join() observes completion. -/
inductive SEvent where
  | take : Nat → SEvent
  | finish : Nat → SEvent
  | poll : SEvent
  | join : SEvent
deriving DecidableEq, Repr

/-- One interleaving step of the crawl scheduler.  The poll event is the
atomic body of the while-loop (no await between the queue.empty check, the
pop_frontier call and the break): with workers alive, all(q.done()) is
False, so an empty queue and an empty frontier reach the second
queue.empty() check, which still sees the same empty queue and breaks into
the joining phase.  The join event is queue.join() returning: every item
ever put has been task_done, i.e. the queue is empty and no worker holds
an in-flight task.  After the done phase nothing moves. -/
def sched_step (O : Oracles) (sha256_bytes : List Nat → String) (net : String → FetchResult)
    (out_dir : String) (cap : Int) (st : SchedState) (e : SEvent) : SchedState :=
  if st.phase = Phase.done then st else
  match e with
  | SEvent.take i =>
    match st.workers.get? i, st.queue with
    | some WStatus.idle, row :: rest =>
      { st with queue := rest, workers := st.workers.set i (WStatus.inflight row.1 row.2) }
    | _, _ => st
  | SEvent.finish i =>
    match st.workers.get? i with
    | some (WStatus.inflight url d) =>
      let out := fetch_and_process O sha256_bytes crawl_enqueue url d st.db st.queue out_dir
        (net url) cap
      { st with db := out.db, queue := out.s, workers := st.workers.set i WStatus.idle }
    | _ => st
  | SEvent.poll =>
    if st.phase = Phase.looping then
      if st.queue.isEmpty then
        match pop_frontier st.db with
        | some (row, db2) => { st with db := db2, queue := st.queue ++ [row] }
        | none => { st with phase := Phase.joining }
      else st
    else st
  | SEvent.join =>
    if st.phase = Phase.joining ∧ st.queue.isEmpty ∧ st.workers.all (fun w => w == WStatus.idle)
    then { st with phase := Phase.done }
    else st

/-- Run the scheduler over a concrete interleaving. -/
def sched_run (O : Oracles) (sha256_bytes : List Nat → String) (net : String → FetchResult)
    (out_dir : String) (cap : Int) (st : SchedState) (es : List SEvent) : SchedState :=
  es.foldl (sched_step O sha256_bytes net out_dir cap) st

/-- Modelled digest standing in for hashlib.sha256 hexdigest (an external
library); used only to instantiate witnesses and counterexamples — no
theorem depends on its internals, only on it being a function of the
bytes. -/
def digest_model (b : List Nat) : String :=
  String.mk (b.map (fun n => Char.ofNat (97 + n % 26)))

/-- Oracle instantiation for witnesses where page contents do not matter:
no links, no title, no extractable text. -/
def emptyOracles : Oracles :=
  ⟨fun _ _ => [], fun _ => none, fun _ _ => "", fun _ => ""⟩

/-- Oracle instantiation for the scheduler scenario: every HTML page
links to http://a.com/q. -/
def sched_O : Oracles :=
  ⟨fun _ _ => ["http://a.com/q"], fun _ => none, fun _ _ => "", fun _ => ""⟩

/-- Network oracle for the scheduler scenario: http://a.com/p is an HTML
page, everything else times out. -/
def sched_net : String → FetchResult := fun u =>
  if u = "http://a.com/p" then FetchResult.response 200 "text/html" [1]
  else FetchResult.failure

/-- Initial scheduler state for the scenario: one worker, the seed page
already loaded from the frontier into the in-memory queue. -/
def sched_init : SchedState :=
  ⟨⟨[], [], []⟩, [("http://a.com/p", 1)], [WStatus.idle], Phase.looping⟩

/-! Helper lemmas about the store operations. -/

theorem beq_comm_str (a b : String) : (a == b) = (b == a) := by
  cases h : a == b
  · cases h2 : b == a
    · rfl
    · rw [eq_of_beq h2] at h
      simp at h
  · rw [eq_of_beq h, beq_self_eq_true]

theorem mark_visited_frontier (db : DBState) (u : String) :
    (mark_visited db u).frontier = db.frontier := by
  unfold mark_visited
  split <;> rfl

theorem mark_visited_docs (db : DBState) (u : String) :
    (mark_visited db u).docs = db.docs := by
  unfold mark_visited
  split <;> rfl

theorem mark_visited_visited_of (db : DBState) (u : String) (h : is_visited db u = false) :
    (mark_visited db u).visited = db.visited ++ [u] := by
  unfold mark_visited
  rw [h]
  simp

theorem is_visited_of_visited_eq (db1 db2 : DBState) (u : String)
    (h : db1.visited = db2.visited) : is_visited db1 u = is_visited db2 u := by
  unfold is_visited
  rw [h]

theorem has_sha_of_docs_eq (db1 db2 : DBState) (x : String)
    (h : db1.docs = db2.docs) : has_sha db1 x = has_sha db2 x := by
  unfold has_sha
  rw [h]

theorem is_visited_append (db1 db : DBState) (u v : String)
    (h : db1.visited = db.visited ++ [u]) :
    is_visited db1 v = (is_visited db v || v == u) := by
  unfold is_visited
  rw [h, List.any_append]
  simp [beq_comm_str u v]

theorem save_doc_visited (db : DBState) (rec : DocRecord) :
    (save_doc db rec).visited = db.visited := by
  unfold save_doc
  split <;> rfl

theorem save_doc_frontier (db : DBState) (rec : DocRecord) :
    (save_doc db rec).frontier = db.frontier := by
  unfold save_doc
  split <;> rfl

theorem save_doc_docs_of (db : DBState) (rec : DocRecord)
    (h : has_sha db rec.sha256 = false) : (save_doc db rec).docs = db.docs ++ [rec] := by
  unfold save_doc
  rw [h]
  simp

theorem add_to_frontier_visited (db : DBState) (u : String) (d : Int) :
    (add_to_frontier db u d).visited = db.visited := by
  unfold add_to_frontier
  split <;> rfl

theorem add_to_frontier_docs (db : DBState) (u : String) (d : Int) :
    (add_to_frontier db u d).docs = db.docs := by
  unfold add_to_frontier
  split <;> rfl

theorem add_to_frontier_len (db : DBState) (u : String) (d : Int) :
    (add_to_frontier db u d).frontier.length ≤ db.frontier.length + 1 := by
  unfold add_to_frontier
  split
  · exact Nat.le_succ _
  · simp

theorem add_to_frontier_mem (db : DBState) (u : String) (d : Int) (r : String × Int)
    (h : r ∈ (add_to_frontier db u d).frontier) : r ∈ db.frontier ∨ r = (u, d) := by
  unfold add_to_frontier at h
  split at h
  · exact Or.inl h
  · simp at h
    rcases h with h | h
    · exact Or.inl h
    · exact Or.inr h

theorem crawl_enqueue_visited (s : List (String × Int)) (db : DBState) (u : String) (d : Int) :
    (crawl_enqueue s db u d).2.visited = db.visited := by
  unfold crawl_enqueue
  split
  · rfl
  · split
    · rfl
    · exact add_to_frontier_visited db u d

theorem crawl_enqueue_docs (s : List (String × Int)) (db : DBState) (u : String) (d : Int) :
    (crawl_enqueue s db u d).2.docs = db.docs := by
  unfold crawl_enqueue
  split
  · rfl
  · split
    · rfl
    · exact add_to_frontier_docs db u d

theorem crawl_enqueue_len (s : List (String × Int)) (db : DBState) (u : String) (d : Int) :
    (crawl_enqueue s db u d).2.frontier.length ≤ db.frontier.length + 1 := by
  unfold crawl_enqueue
  split
  · exact Nat.le_succ _
  · split
    · exact Nat.le_succ _
    · exact add_to_frontier_len db u d

theorem crawl_enqueue_mem (s : List (String × Int)) (db : DBState) (u : String) (d : Int)
    (r : String × Int) (h : r ∈ (crawl_enqueue s db u d).2.frontier) :
    r ∈ db.frontier ∨ r.1 = u := by
  unfold crawl_enqueue at h
  split at h
  · exact Or.inl h
  · split at h
    · exact Or.inl h
    · rcases add_to_frontier_mem db u d r h with h2 | h2
      · exact Or.inl h2
      · exact Or.inr (by rw [h2])

theorem linkLoop_nil {σ : Type} (cb : σ → DBState → String → Int → σ × DBState) (d1 : Int)
    (s : σ) (db : DBState) (acc : List (String × Int)) :
    linkLoop cb d1 [] s db acc = (s, db, acc) := rfl

theorem linkLoop_cons {σ : Type} (cb : σ → DBState → String → Int → σ × DBState) (d1 : Int)
    (l : String) (ls : List String) (s : σ) (db : DBState) (acc : List (String × Int)) :
    linkLoop cb d1 (l :: ls) s db acc =
      if is_visited db l then linkLoop cb d1 ls s db acc
      else linkLoop cb d1 ls (cb s db l d1).1 (cb s db l d1).2 (acc ++ [(l, d1)]) := rfl

theorem linkLoop_spec (d1 : Int) (ls : List String) :
    ∀ (s : List (String × Int)) (db : DBState) (acc : List (String × Int)),
    (linkLoop crawl_enqueue d1 ls s db acc).2.1.visited = db.visited ∧
    (linkLoop crawl_enqueue d1 ls s db acc).2.1.docs = db.docs ∧
    (linkLoop crawl_enqueue d1 ls s db acc).2.1.frontier.length ≤ db.frontier.length + ls.length ∧
    (∀ r, r ∈ (linkLoop crawl_enqueue d1 ls s db acc).2.1.frontier →
      r ∈ db.frontier ∨ r.1 ∈ ls) ∧
    (∀ p, p ∈ (linkLoop crawl_enqueue d1 ls s db acc).2.2 →
      p ∈ acc ∨ (p.2 = d1 ∧ p.1 ∈ ls ∧ is_visited db p.1 = false)) := by
  induction ls with
  | nil =>
    intro s db acc
    refine ⟨rfl, rfl, by simp [linkLoop], ?_, ?_⟩
    · intro r hr
      exact Or.inl hr
    · intro p hp
      exact Or.inl hp
  | cons l ls ih =>
    intro s db acc
    have hlen : (l :: ls : List String).length = ls.length + 1 := rfl
    by_cases hv : is_visited db l = true
    · have e : linkLoop crawl_enqueue d1 (l :: ls) s db acc
        = linkLoop crawl_enqueue d1 ls s db acc := by
        rw [linkLoop_cons, if_pos hv]
      rw [e]
      obtain ⟨h1, h2, h3, h4, h5⟩ := ih s db acc
      refine ⟨h1, h2, ?_, ?_, ?_⟩
      · exact le_trans h3 (by omega)
      · intro r hr
        rcases h4 r hr with h | h
        · exact Or.inl h
        · exact Or.inr (List.mem_cons_of_mem _ h)
      · intro p hp
        rcases h5 p hp with h | h
        · exact Or.inl h
        · exact Or.inr ⟨h.1, List.mem_cons_of_mem _ h.2.1, h.2.2⟩
    · have hv' : is_visited db l = false := by
        cases h : is_visited db l
        · rfl
        · exact absurd h hv
      have e : linkLoop crawl_enqueue d1 (l :: ls) s db acc
        = linkLoop crawl_enqueue d1 ls (crawl_enqueue s db l d1).1
            (crawl_enqueue s db l d1).2 (acc ++ [(l, d1)]) := by
        rw [linkLoop_cons, if_neg (by rw [hv']; exact Bool.false_ne_true)]
      rw [e]
      obtain ⟨h1, h2, h3, h4, h5⟩ :=
        ih (crawl_enqueue s db l d1).1 (crawl_enqueue s db l d1).2 (acc ++ [(l, d1)])
      refine ⟨?_, ?_, ?_, ?_, ?_⟩
      · rw [h1]
        exact crawl_enqueue_visited s db l d1
      · rw [h2]
        exact crawl_enqueue_docs s db l d1
      · have hce := crawl_enqueue_len s db l d1
        exact le_trans h3 (by omega)
      · intro r hr
        rcases h4 r hr with h | h
        · rcases crawl_enqueue_mem s db l d1 r h with h6 | h6
          · exact Or.inl h6
          · exact Or.inr (by rw [h6]; exact List.mem_cons_self l ls)
        · exact Or.inr (List.mem_cons_of_mem _ h)
      · intro p hp
        rcases h5 p hp with h | h
        · rcases List.mem_append.mp h with h6 | h6
          · exact Or.inl h6
          · have h7 : p = (l, d1) := by
              simpa using h6
            refine Or.inr ⟨by rw [h7], by rw [h7]; exact List.mem_cons_self l ls, ?_⟩
            rw [h7]
            exact hv'
        · refine Or.inr ⟨h.1, List.mem_cons_of_mem _ h.2.1, ?_⟩
          have h8 : is_visited (crawl_enqueue s db l d1).2 p.1 = is_visited db p.1 :=
            is_visited_of_visited_eq _ db p.1 (crawl_enqueue_visited s db l d1)
          rw [← h8]
          exact h.2.2

/-- The raw storage path computed by the success branch of
fetch_and_process: output root, raw tree, domain directory, sanitised
digest, chosen extension. -/
def stored_raw_path (out_dir : String) (url : String) (ct : String) (sha : String) : String :=
  out_dir ++ "/raw/" ++ (urlparse url).netloc ++ "/" ++
    (safe_name sha 150 ++ chooseExt (lowerList (urlparse url).path.data)
      (detect_mime ct (urlparse url).path))

theorem fp_visited_eq {σ : Type} (O : Oracles) (shafn : List Nat → String)
    (cb : σ → DBState → String → Int → σ × DBState) (url : String) (depth : Int)
    (db : DBState) (s : σ) (od : String) (res : FetchResult) (cap : Int)
    (h : is_visited db url = true) :
    fetch_and_process O shafn cb url depth db s od res cap = ⟨db, s, [], [], []⟩ := by
  unfold fetch_and_process
  rw [if_pos h]

theorem fp_failure_eq {σ : Type} (O : Oracles) (shafn : List Nat → String)
    (cb : σ → DBState → String → Int → σ × DBState) (url : String) (depth : Int)
    (db : DBState) (s : σ) (od : String) (cap : Int)
    (h : is_visited db url = false) :
    fetch_and_process O shafn cb url depth db s od FetchResult.failure cap
      = ⟨mark_visited db url, s, [], [], []⟩ := by
  unfold fetch_and_process
  rw [h]
  simp

theorem fp_non200_eq {σ : Type} (O : Oracles) (shafn : List Nat → String)
    (cb : σ → DBState → String → Int → σ × DBState) (url : String) (depth : Int)
    (db : DBState) (s : σ) (od : String) (status : Nat) (ct : String) (B : List Nat) (cap : Int)
    (h : is_visited db url = false) (hst : status ≠ 200) :
    fetch_and_process O shafn cb url depth db s od (FetchResult.response status ct B) cap
      = ⟨mark_visited db url, s, [], [], []⟩ := by
  unfold fetch_and_process
  rw [h]
  simp [hst]

theorem fp_oversize_eq {σ : Type} (O : Oracles) (shafn : List Nat → String)
    (cb : σ → DBState → String → Int → σ × DBState) (url : String) (depth : Int)
    (db : DBState) (s : σ) (od : String) (ct : String) (B : List Nat) (cap : Int)
    (h : is_visited db url = false) (hcap : cap ≠ 0) (hlen : (B.length : Int) > cap) :
    fetch_and_process O shafn cb url depth db s od (FetchResult.response 200 ct B) cap
      = ⟨mark_visited db url, s, [], [], []⟩ := by
  unfold fetch_and_process
  rw [h]
  simp [hcap, hlen]

theorem fp_dup_eq {σ : Type} (O : Oracles) (shafn : List Nat → String)
    (cb : σ → DBState → String → Int → σ × DBState) (url : String) (depth : Int)
    (db : DBState) (s : σ) (od : String) (ct : String) (B : List Nat) (cap : Int)
    (h : is_visited db url = false) (hcap : ¬(cap ≠ 0 ∧ (B.length : Int) > cap))
    (hsha : has_sha db (shafn B) = true) :
    fetch_and_process O shafn cb url depth db s od (FetchResult.response 200 ct B) cap
      = ⟨mark_visited db url, s, [], [], []⟩ := by
  unfold fetch_and_process
  rw [h]
  simp [hcap, hsha]

theorem store_spec (db db2 : DBState) (R : DocRecord) (url : String)
    (hdocs : db2.docs = db.docs) (hvis : db2.visited = db.visited)
    (hnv : is_visited db url = false) (hsha : has_sha db R.sha256 = false) :
    (mark_visited (save_doc db2 R) url).docs = db.docs ++ [R] ∧
    (mark_visited (save_doc db2 R) url).visited = db.visited ++ [url] ∧
    (mark_visited (save_doc db2 R) url).frontier = db2.frontier := by
  have hsha2 : has_sha db2 R.sha256 = false := by
    rw [has_sha_of_docs_eq db2 db _ hdocs]
    exact hsha
  have hnv2 : is_visited (save_doc db2 R) url = false := by
    rw [is_visited_of_visited_eq _ db2 _ (save_doc_visited db2 R),
      is_visited_of_visited_eq db2 db _ hvis]
    exact hnv
  refine ⟨?_, ?_, ?_⟩
  · rw [mark_visited_docs, save_doc_docs_of db2 R hsha2, hdocs]
  · rw [mark_visited_visited_of _ _ hnv2, save_doc_visited, hvis]
  · rw [mark_visited_frontier, save_doc_frontier]

theorem fp_success_spec (O : Oracles) (shafn : List Nat → String)
    (url : String) (depth : Int) (db : DBState) (s : List (String × Int)) (od : String)
    (ct : String) (B : List Nat) (cap : Int)
    (hnv : is_visited db url = false)
    (hcap : ¬(cap ≠ 0 ∧ (B.length : Int) > cap))
    (hsha : has_sha db (shafn B) = false) :
    (∃ rec : DocRecord,
      (fetch_and_process O shafn crawl_enqueue url depth db s od
          (FetchResult.response 200 ct B) cap).db.docs = db.docs ++ [rec] ∧
      rec.sha256 = shafn B ∧ rec.url = url ∧ rec.domain = (urlparse url).netloc ∧
      rec.mime = detect_mime ct (urlparse url).path ∧ rec.bytes = B.length ∧
      rec.stored_path = stored_raw_path od url ct (shafn B)) ∧
    (fetch_and_process O shafn crawl_enqueue url depth db s od
        (FetchResult.response 200 ct B) cap).raw_writes
      = [(stored_raw_path od url ct (shafn B), B)] ∧
    (fetch_and_process O shafn crawl_enqueue url depth db s od
        (FetchResult.response 200 ct B) cap).db.visited = db.visited ++ [url] ∧
    (fetch_and_process O shafn crawl_enqueue url depth db s od
        (FetchResult.response 200 ct B) cap).db.frontier.length
      ≤ db.frontier.length + (O.extract_links url B).length ∧
    (∀ r, r ∈ (fetch_and_process O shafn crawl_enqueue url depth db s od
        (FetchResult.response 200 ct B) cap).db.frontier →
      r ∈ db.frontier ∨ r.1 ∈ O.extract_links url B) ∧
    (∀ p, p ∈ (fetch_and_process O shafn crawl_enqueue url depth db s od
        (FetchResult.response 200 ct B) cap).calls →
      p.2 = depth - 1 ∧ 0 < depth ∧ p.1 ∈ O.extract_links url B ∧
        is_visited db p.1 = false) := by
  unfold fetch_and_process
  rw [hnv]
  simp only [Bool.false_eq_true, if_false, ne_eq, not_true_eq_false, if_neg hcap, hsha,
    reduceIte]
  by_cases hhtml :
      startsWithL ['t', 'e', 'x', 't', '/', 'h', 't', 'm', 'l']
        (detect_mime ct (urlparse url).path).data = true
  · rw [if_pos hhtml]
    by_cases hd : depth > 0
    · rw [if_pos hd]
      obtain ⟨hvisLL, hdocsLL, hlenLL, hmemLL, hcallsLL⟩ :=
        linkLoop_spec (depth - 1) (O.extract_links url B) s db []
      obtain ⟨hs1, hs2, hs3⟩ :=
        store_spec db (linkLoop crawl_enqueue (depth - 1) (O.extract_links url B) s db []).2.1
          ⟨shafn B, url, (urlparse url).netloc, detect_mime ct (urlparse url).path, B.length,
            od ++ "/raw/" ++ (urlparse url).netloc ++ "/" ++
              (safe_name (shafn B) 150 ++ chooseExt (lowerList (urlparse url).path.data)
                (detect_mime ct (urlparse url).path)),
            (if ¬trimList (O.html_to_text B url).data = [] then
              some (od ++ "/text/" ++ (urlparse url).netloc ++ "/" ++ safe_name (shafn B) 150
                ++ ".docx")
            else none), O.extract_title B⟩
          url hdocsLL hvisLL hnv hsha
      refine ⟨⟨_, hs1, rfl, rfl, rfl, rfl, rfl, rfl⟩, rfl, hs2, ?_, ?_, ?_⟩
      · rw [hs3]
        exact hlenLL
      · intro r hr
        rw [hs3] at hr
        exact hmemLL r hr
      · intro p hp
        rcases hcallsLL p hp with h | h
        · exact absurd h (List.not_mem_nil p)
        · exact ⟨h.1, hd, h.2.1, h.2.2⟩
    · rw [if_neg hd]
      obtain ⟨hs1, hs2, hs3⟩ :=
        store_spec db db
          ⟨shafn B, url, (urlparse url).netloc, detect_mime ct (urlparse url).path, B.length,
            od ++ "/raw/" ++ (urlparse url).netloc ++ "/" ++
              (safe_name (shafn B) 150 ++ chooseExt (lowerList (urlparse url).path.data)
                (detect_mime ct (urlparse url).path)),
            (if ¬trimList (O.html_to_text B url).data = [] then
              some (od ++ "/text/" ++ (urlparse url).netloc ++ "/" ++ safe_name (shafn B) 150
                ++ ".docx")
            else none), O.extract_title B⟩
          url rfl rfl hnv hsha
      refine ⟨⟨_, hs1, rfl, rfl, rfl, rfl, rfl, rfl⟩, rfl, hs2, ?_, ?_, ?_⟩
      · rw [hs3]
        exact Nat.le_add_right _ _
      · intro r hr
        rw [hs3] at hr
        exact Or.inl hr
      · intro p hp
        exact absurd hp (List.not_mem_nil p)
  · rw [if_neg hhtml]
    by_cases hpdf : detect_mime ct (urlparse url).path = "application/pdf"
    · rw [if_pos hpdf]
      obtain ⟨hs1, hs2, hs3⟩ :=
        store_spec db db
          ⟨shafn B, url, (urlparse url).netloc, detect_mime ct (urlparse url).path, B.length,
            od ++ "/raw/" ++ (urlparse url).netloc ++ "/" ++
              (safe_name (shafn B) 150 ++ chooseExt (lowerList (urlparse url).path.data)
                (detect_mime ct (urlparse url).path)),
            (if ¬trimList (O.pdf_extract_text B).data = [] then
              some (od ++ "/text/" ++ (urlparse url).netloc ++ "/" ++ safe_name (shafn B) 150
                ++ ".docx")
            else none), none⟩
          url rfl rfl hnv hsha
      refine ⟨⟨_, hs1, rfl, rfl, rfl, rfl, rfl, rfl⟩, rfl, hs2, ?_, ?_, ?_⟩
      · rw [hs3]
        exact Nat.le_add_right _ _
      · intro r hr
        rw [hs3] at hr
        exact Or.inl hr
      · intro p hp
        exact absurd hp (List.not_mem_nil p)
    · rw [if_neg hpdf]
      obtain ⟨hs1, hs2, hs3⟩ :=
        store_spec db db
          ⟨shafn B, url, (urlparse url).netloc, detect_mime ct (urlparse url).path, B.length,
            od ++ "/raw/" ++ (urlparse url).netloc ++ "/" ++
              (safe_name (shafn B) 150 ++ chooseExt (lowerList (urlparse url).path.data)
                (detect_mime ct (urlparse url).path)), none, none⟩
          url rfl rfl hnv hsha
      refine ⟨⟨_, hs1, rfl, rfl, rfl, rfl, rfl, rfl⟩, rfl, hs2, ?_, ?_, ?_⟩
      · rw [hs3]
        exact Nat.le_add_right _ _
      · intro r hr
        rw [hs3] at hr
        exact Or.inl hr
      · intro p hp
        exact absurd hp (List.not_mem_nil p)

theorem fp_db_spec (O : Oracles) (shafn : List Nat → String)
    (url : String) (depth : Int) (db : DBState) (s : List (String × Int)) (od : String)
    (res : FetchResult) (cap : Int) (hnv : is_visited db url = false) :
    (fetch_and_process O shafn crawl_enqueue url depth db s od res cap).db.visited
      = db.visited ++ [url] ∧
    (fetch_and_process O shafn crawl_enqueue url depth db s od res cap).db.frontier.length
      ≤ db.frontier.length + (resLinks O url res).length ∧
    (∀ r, r ∈ (fetch_and_process O shafn crawl_enqueue url depth db s od res cap).db.frontier →
      r ∈ db.frontier ∨ r.1 ∈ resLinks O url res) := by
  have hmark : (mark_visited db url).visited = db.visited ++ [url] :=
    mark_visited_visited_of db url hnv
  cases res with
  | failure =>
    rw [fp_failure_eq O shafn crawl_enqueue url depth db s od cap hnv]
    refine ⟨hmark, ?_, ?_⟩
    · rw [mark_visited_frontier]
      exact Nat.le_add_right _ _
    · intro r hr
      rw [mark_visited_frontier] at hr
      exact Or.inl hr
  | response status ct B =>
    by_cases hst : status = 200
    · subst hst
      by_cases hover : cap ≠ 0 ∧ (B.length : Int) > cap
      · rw [fp_oversize_eq O shafn crawl_enqueue url depth db s od ct B cap hnv hover.1 hover.2]
        refine ⟨hmark, ?_, ?_⟩
        · rw [mark_visited_frontier]
          exact Nat.le_add_right _ _
        · intro r hr
          rw [mark_visited_frontier] at hr
          exact Or.inl hr
      · by_cases hsha : has_sha db (shafn B) = true
        · rw [fp_dup_eq O shafn crawl_enqueue url depth db s od ct B cap hnv hover hsha]
          refine ⟨hmark, ?_, ?_⟩
          · rw [mark_visited_frontier]
            exact Nat.le_add_right _ _
          · intro r hr
            rw [mark_visited_frontier] at hr
            exact Or.inl hr
        · have hsha' : has_sha db (shafn B) = false := by
            cases h : has_sha db (shafn B)
            · rfl
            · exact absurd h hsha
          obtain ⟨_, _, h3, h4, h5, _⟩ :=
            fp_success_spec O shafn url depth db s od ct B cap hnv hover hsha'
          exact ⟨h3, h4, h5⟩
    · rw [fp_non200_eq O shafn crawl_enqueue url depth db s od status ct B cap hnv hst]
      refine ⟨hmark, ?_, ?_⟩
      · rw [mark_visited_frontier]
        exact Nat.le_add_right _ _
      · intro r hr
        rw [mark_visited_frontier] at hr
        exact Or.inl hr

theorem fp_calls_spec (O : Oracles) (shafn : List Nat → String)
    (url : String) (depth : Int) (db : DBState) (s : List (String × Int)) (od : String)
    (res : FetchResult) (cap : Int) :
    ∀ p, p ∈ (fetch_and_process O shafn crawl_enqueue url depth db s od res cap).calls →
      p.2 = depth - 1 ∧ 0 < depth ∧ p.1 ∈ resLinks O url res ∧ is_visited db p.1 = false := by
  by_cases hnv : is_visited db url = true
  · rw [fp_visited_eq O shafn crawl_enqueue url depth db s od res cap hnv]
    intro p hp
    exact absurd hp (List.not_mem_nil p)
  · have hnv' : is_visited db url = false := by
      cases h : is_visited db url
      · rfl
      · exact absurd h hnv
    cases res with
    | failure =>
      rw [fp_failure_eq O shafn crawl_enqueue url depth db s od cap hnv']
      intro p hp
      exact absurd hp (List.not_mem_nil p)
    | response status ct B =>
      by_cases hst : status = 200
      · subst hst
        by_cases hover : cap ≠ 0 ∧ (B.length : Int) > cap
        · rw [fp_oversize_eq O shafn crawl_enqueue url depth db s od ct B cap hnv'
            hover.1 hover.2]
          intro p hp
          exact absurd hp (List.not_mem_nil p)
        · by_cases hsha : has_sha db (shafn B) = true
          · rw [fp_dup_eq O shafn crawl_enqueue url depth db s od ct B cap hnv' hover hsha]
            intro p hp
            exact absurd hp (List.not_mem_nil p)
          · have hsha' : has_sha db (shafn B) = false := by
              cases h : has_sha db (shafn B)
              · rfl
              · exact absurd h hsha
            obtain ⟨_, _, _, _, _, h6⟩ :=
              fp_success_spec O shafn url depth db s od ct B cap hnv' hover hsha'
            exact h6
      · rw [fp_non200_eq O shafn crawl_enqueue url depth db s od status ct B cap hnv' hst]
        intro p hp
        exact absurd hp (List.not_mem_nil p)

theorem sum_filter_sub (f : String → Nat) (a : String) (U : List String) :
    ∀ (p : String → Bool), a ∈ U → p a = true →
    ((U.filter (fun x => p x && !(x == a))).map f).sum + f a
      ≤ ((U.filter p).map f).sum := by
  induction U with
  | nil =>
    intro p ha _
    exact absurd ha (List.not_mem_nil a)
  | cons u U ih =>
    intro p ha hpa
    have hsub : List.Sublist (U.filter (fun x => p x && !(x == a))) (U.filter p) :=
      List.monotone_filter_right U (fun x hx => by
        revert hx
        cases p x
        · intro hx
          exact absurd hx (by simp)
        · intro _
          rfl)
    have hsum : ((U.filter (fun x => p x && !(x == a))).map f).sum
        ≤ ((U.filter p).map f).sum :=
      List.Sublist.sum_le_sum (hsub.map f) (by intro x _; exact Nat.zero_le x)
    rw [List.filter_cons, List.filter_cons]
    by_cases hua : (u == a) = true
    · have hue : u = a := eq_of_beq hua
      have hpu : p u = true := by rw [hue]; exact hpa
      have hq : (p u && !(u == a)) = false := by rw [hua, hpu]; rfl
      rw [hq, hpu]
      simp only [Bool.false_eq_true, if_false, if_true, List.map_cons, List.sum_cons]
      rw [hue]
      omega
    · have hanotu : a ∈ U := by
        rcases List.mem_cons.mp ha with h | h
        · exact absurd (by rw [h]; exact beq_self_eq_true u) hua
        · exact h
      have ihs := ih p hanotu hpa
      by_cases hpu : p u = true
      · have hub : (u == a) = false := by
          cases h : u == a
          · rfl
          · exact absurd h hua
        have hq : (p u && !(u == a)) = true := by rw [hpu, hub]; rfl
        rw [hq, hpu]
        simp only [if_true, List.map_cons, List.sum_cons]
        omega
      · have hpu' : p u = false := by
          cases h : p u
          · rfl
          · exact absurd h hpu
        have hq : (p u && !(u == a)) = false := by rw [hpu']; rfl
        rw [hq, hpu']
        simp only [Bool.false_eq_true, if_false]
        exact ihs

theorem seq_run_zero (O : Oracles) (shafn : List Nat → String) (net : String → FetchResult)
    (od : String) (cap : Int) (db : DBState) :
    seq_run O shafn net od cap 0 db = db := rfl

theorem seq_run_succ (O : Oracles) (shafn : List Nat → String) (net : String → FetchResult)
    (od : String) (cap : Int) (n : Nat) (db : DBState) :
    seq_run O shafn net od cap (n + 1) db =
      if db.frontier = [] then db
      else seq_run O shafn net od cap n (seq_step O shafn net od cap db) := rfl

theorem seq_step_cons (O : Oracles) (shafn : List Nat → String) (net : String → FetchResult)
    (od : String) (cap : Int) (db : DBState) (row : String × Int) (rest : List (String × Int))
    (hf : db.frontier = row :: rest) :
    seq_step O shafn net od cap db
      = (fetch_and_process O shafn crawl_enqueue row.1 row.2
          { db with frontier := (row :: rest).filter (fun r => !(r.1 == row.1)) }
          ([] : List (String × Int)) od (net row.1) cap).db := by
  unfold seq_step pop_frontier
  rw [hf]

theorem filter_head_self (row : String × Int) (rest : List (String × Int)) :
    (row :: rest).filter (fun r => !(r.1 == row.1)) =
      rest.filter (fun r => !(r.1 == row.1)) := by
  rw [List.filter_cons]
  simp

theorem crawl_phi_congr (O : Oracles) (net : String → FetchResult) (U : List String)
    (db1 db2 : DBState) (h : db1.visited = db2.visited) :
    ((U.filter (fun u => !(is_visited db1 u))).map
      (fun u => (linksOf O net u).length)).sum
    = ((U.filter (fun u => !(is_visited db2 u))).map
      (fun u => (linksOf O net u).length)).sum := by
  have : U.filter (fun u => !(is_visited db1 u)) = U.filter (fun u => !(is_visited db2 u)) := by
    apply List.filter_congr
    intro x _
    rw [is_visited_of_visited_eq db1 db2 x h]
  rw [this]

theorem seq_step_phi (O : Oracles) (shafn : List Nat → String) (net : String → FetchResult)
    (od : String) (cap : Int) (U : List String) (db : DBState)
    (hne : db.frontier ≠ [])
    (hU : ∀ r, r ∈ db.frontier → r.1 ∈ U)
    (hcl : ∀ u, u ∈ U → ∀ l, l ∈ linksOf O net u → l ∈ U) :
    crawl_phi O net U (seq_step O shafn net od cap db) < crawl_phi O net U db ∧
    (∀ r, r ∈ (seq_step O shafn net od cap db).frontier → r.1 ∈ U) := by
  obtain ⟨row, rest, hf⟩ : ∃ row rest, db.frontier = row :: rest := by
    cases h : db.frontier with
    | nil => exact absurd h hne
    | cons a b => exact ⟨a, b, rfl⟩
  rw [seq_step_cons O shafn net od cap db row rest hf]
  set db0 : DBState :=
    { db with frontier := (row :: rest).filter (fun r => !(r.1 == row.1)) } with hdb0
  have hrowU : row.1 ∈ U := hU row (by rw [hf]; exact List.mem_cons_self row rest)
  have hvis0 : db0.visited = db.visited := by rw [hdb0]
  have hlen0 : db0.frontier.length ≤ rest.length := by
    rw [hdb0]
    show ((row :: rest).filter (fun r => !(r.1 == row.1))).length ≤ rest.length
    rw [filter_head_self]
    exact List.length_filter_le _ rest
  have hmem0 : ∀ r, r ∈ db0.frontier → r ∈ db.frontier := by
    intro r hr
    rw [hdb0] at hr
    rw [hf]
    exact (List.mem_filter.mp hr).1
  by_cases hv : is_visited db0 row.1 = true
  · have hdbeq : (fetch_and_process O shafn crawl_enqueue row.1 row.2 db0
        ([] : List (String × Int)) od (net row.1) cap).db = db0 := by
      rw [fp_visited_eq O shafn crawl_enqueue row.1 row.2 db0 [] od (net row.1) cap hv]
    rw [hdbeq]
    constructor
    · unfold crawl_phi
      rw [crawl_phi_congr O net U db0 db hvis0, hf]
      have hc : (row :: rest).length = rest.length + 1 := rfl
      omega
    · intro r hr
      exact hU r (hmem0 r hr)
  · have hv2 : is_visited db0 row.1 = false := by
      cases h : is_visited db0 row.1
      · rfl
      · exact absurd h hv
    obtain ⟨hvis, hlen, hmem⟩ := fp_db_spec O shafn row.1 row.2 db0
      ([] : List (String × Int)) od (net row.1) cap hv2
    have hvdb : is_visited db row.1 = false := by
      rw [← is_visited_of_visited_eq db0 db row.1 hvis0]
      exact hv2
    constructor
    · unfold crawl_phi
      have hmarkv : (fetch_and_process O shafn crawl_enqueue row.1 row.2 db0
          ([] : List (String × Int)) od (net row.1) cap).db.visited
          = db.visited ++ [row.1] := by
        rw [hvis, hvis0]
      have hq : ∀ u, is_visited (fetch_and_process O shafn crawl_enqueue row.1 row.2 db0
          ([] : List (String × Int)) od (net row.1) cap).db u
          = (is_visited db u || u == row.1) := by
        intro u
        exact is_visited_append _ db row.1 u hmarkv
      have hfil : (U.filter (fun u => !(is_visited (fetch_and_process O shafn crawl_enqueue
          row.1 row.2 db0 ([] : List (String × Int)) od (net row.1) cap).db u)))
          = U.filter (fun u => !(is_visited db u) && !(u == row.1)) := by
        apply List.filter_congr
        intro x _
        rw [hq x, Bool.not_or]
      rw [hfil]
      have hsum := sum_filter_sub (fun u => (linksOf O net u).length) row.1 U
        (fun u => !(is_visited db u)) hrowU
        (by show (!(is_visited db row.1)) = true; rw [hvdb]; rfl)
      have hsum2 : ((U.filter (fun u => !(is_visited db u) && !(u == row.1))).map
          (fun u => (linksOf O net u).length)).sum + (linksOf O net row.1).length
          ≤ ((U.filter (fun u => !(is_visited db u))).map
            (fun u => (linksOf O net u).length)).sum := hsum
      have hlinks : (resLinks O row.1 (net row.1)).length = (linksOf O net row.1).length := rfl
      rw [hf]
      have hc : (row :: rest).length = rest.length + 1 := rfl
      omega
    · intro r hr
      rcases hmem r hr with h | h
      · exact hU r (hmem0 r h)
      · exact hcl row.1 hrowU r.1 h


theorem seq_run_frontier_empty (O : Oracles) (shafn : List Nat → String)
    (net : String → FetchResult) (od : String) (cap : Int) (U : List String)
    (hcl : ∀ u, u ∈ U → ∀ l, l ∈ linksOf O net u → l ∈ U) :
    ∀ (n : Nat) (db : DBState), (∀ r, r ∈ db.frontier → r.1 ∈ U) →
      crawl_phi O net U db ≤ n →
      (seq_run O shafn net od cap n db).frontier = [] := by
  intro n
  induction n with
  | zero =>
    intro db _ hphi
    rw [seq_run_zero]
    have hlen : db.frontier.length = 0 := by
      unfold crawl_phi at hphi
      omega
    exact List.length_eq_zero.mp hlen
  | succ n ih =>
    intro db hU hphi
    by_cases hfr : db.frontier = []
    · rw [seq_run_succ, if_pos hfr]
      exact hfr
    · rw [seq_run_succ, if_neg hfr]
      obtain ⟨hlt, hmem⟩ := seq_step_phi O shafn net od cap U db hfr hU hcl
      exact ih (seq_step O shafn net od cap db) hmem (by omega)

theorem is_visited_mark_self (db : DBState) (u : String) :
    is_visited (mark_visited db u) u = true := by
  unfold mark_visited
  by_cases h : is_visited db u = true
  · rw [if_pos h]
    exact h
  · have h2 : is_visited db u = false := by
      cases hx : is_visited db u
      · rfl
      · exact absurd hx h
    rw [h2]
    simp only [Bool.false_eq_true, if_false]
    show (db.visited ++ [u]).any (fun v => v == u) = true
    rw [List.any_append]
    simp

theorem any_false_filter_nil {α : Type} (l : List α) (p : α → Bool)
    (h : l.any p = false) : l.filter p = [] := by
  induction l with
  | nil => rfl
  | cons a l ih =>
    rw [List.any_cons] at h
    have hpa : p a = false := by
      cases hx : p a
      · rfl
      · rw [hx] at h
        simp at h
    have hl : l.any p = false := by
      cases hx : l.any p
      · rfl
      · rw [hx] at h
        simp at h
    rw [List.filter_cons, hpa]
    simp only [Bool.false_eq_true, if_false]
    exact ih hl

/-! Claim theorems. -/

/-- C4 counterexample: the claim says no operation of the crawl, seed
loading included, ever re-inserts a Visited URL into the Frontier.  But
seed loading (source lines 344-345) calls DB.add_to_frontier directly,
which never consults the visited table: starting from a store whose
visited set already holds http://a.com/ and whose frontier is empty,
loading that same URL as a seed puts it back into the frontier. -/
theorem C4_counterexample :
    is_visited ⟨[], ["http://a.com/"], []⟩ "http://a.com/" = true ∧
    (load_seeds ⟨[], ["http://a.com/"], []⟩ ["http://a.com/"] 2).frontier
      = [("http://a.com/", 2)] := by
  decide

/-- C4 (amended): the link-discovery enqueue closure of crawl is a no-op
on a URL already in Visited — it never re-inserts a visited URL into the
Frontier or the in-memory queue; seed loading at startup and the raw
DB.add_to_frontier insert, by contrast, do not consult Visited and can
re-insert a visited URL (which is then skipped at dispatch time). -/
theorem C4_enqueue_noop (s : List (String × Int)) (db : DBState) (url : String) (d : Int)
    (h : is_visited db url = true) :
    crawl_enqueue s db url d = (s, db) := by
  unfold crawl_enqueue
  split_ifs with h1
  · rfl
  · rfl

/-- C4 (amended) witness at a concrete visited URL. -/
theorem C4_enqueue_noop_witness :
    is_visited ⟨[], ["http://a.com/"], []⟩ "http://a.com/" = true ∧
    crawl_enqueue [] ⟨[], ["http://a.com/"], []⟩ "http://a.com/" 2
      = ([], ⟨[], ["http://a.com/"], []⟩) :=
  ⟨by decide, C4_enqueue_noop [] ⟨[], ["http://a.com/"], []⟩ "http://a.com/" 2 (by decide)⟩

/-- C6: inserting the same URL into the Frontier twice, with any two
depths, leaves exactly one frontier row for that URL and it carries the
depth of the first insert — INSERT OR IGNORE silently drops the second
row. -/
theorem C6_idempotent_enqueue (db : DBState) (u : String) (d1 d2 : Int)
    (h : db.frontier.any (fun r => r.1 == u) = false) :
    ((add_to_frontier (add_to_frontier db u d1) u d2).frontier.filter
      (fun r => r.1 == u)) = [(u, d1)] := by
  have e1 : add_to_frontier db u d1 = { db with frontier := db.frontier ++ [(u, d1)] } := by
    unfold add_to_frontier
    rw [h]
    simp
  rw [e1]
  have h2 : ({ db with frontier := db.frontier ++ [(u, d1)] } : DBState).frontier.any
      (fun r => r.1 == u) = true := by
    show (db.frontier ++ [(u, d1)]).any (fun r => r.1 == u) = true
    rw [List.any_append]
    simp
  have e2 : add_to_frontier { db with frontier := db.frontier ++ [(u, d1)] } u d2
      = { db with frontier := db.frontier ++ [(u, d1)] } := by
    unfold add_to_frontier
    rw [h2]
    simp
  rw [e2]
  show (db.frontier ++ [(u, d1)]).filter (fun r => r.1 == u) = [(u, d1)]
  rw [List.filter_append, any_false_filter_nil db.frontier _ h]
  simp

/-- C6 witness: two inserts of the same URL at depths 2 then 5 leave one
row at depth 2. -/
theorem C6_idempotent_enqueue_witness :
    (⟨[("http://b.com/", 1)], [], []⟩ : DBState).frontier.any
      (fun r => r.1 == "http://a.com/") = false ∧
    ((add_to_frontier (add_to_frontier ⟨[("http://b.com/", 1)], [], []⟩ "http://a.com/" 2)
      "http://a.com/" 5).frontier.filter (fun r => r.1 == "http://a.com/"))
      = [("http://a.com/", 2)] :=
  ⟨by decide, C6_idempotent_enqueue ⟨[("http://b.com/", 1)], [], []⟩ "http://a.com/" 2 5
    (by decide)⟩

/-- C9 counterexample: the claim says the classifier falls back to
file-extension sniffing whenever the Content-Type header is absent or
generic.  The code only falls back when the normalised header is empty: on
the generic header application/octet-stream with a .pdf URL path,
detect_mime returns the header unchanged instead of the sniffed
application/pdf. -/
theorem C9_counterexample :
    detect_mime "application/octet-stream" "/file.pdf" = "application/octet-stream" ∧
    ext_sniff "/file.pdf" = "application/pdf" ∧
    ("application/octet-stream" : String) ≠ "application/pdf" := by
  decide

/-- C9 (amended): detect_mime classifies from the Content-Type header
first — whenever the normalised header (parameters stripped, trimmed,
lowercased) is non-empty it is returned as is, generic or not — and falls
back to file-extension sniffing on the URL path exactly when the
normalised header is empty. -/
theorem C9_header_first (ct p : String) :
    (header_norm ct ≠ "" → detect_mime ct p = header_norm ct) ∧
    (header_norm ct = "" → detect_mime ct p = ext_sniff p) := by
  constructor
  · intro h
    unfold detect_mime
    by_cases hc : lowerList (trimList (ct.data.takeWhile (fun x => x != ';'))) ≠ []
    · rw [if_pos hc]
      rfl
    · exfalso
      apply h
      rw [not_not] at hc
      unfold header_norm
      rw [hc]
  · intro h
    unfold detect_mime
    have hc : lowerList (trimList (ct.data.takeWhile (fun x => x != ';'))) = [] := by
      have := congrArg String.data h
      exact this
    rw [if_neg (by rw [hc]; exact not_not_intro rfl)]
    rfl

/-- C9 (amended) witness: a generic but non-empty header is returned as
normalised, and an empty header falls back to sniffing. -/
theorem C9_header_first_witness :
    header_norm "Application/Octet-Stream; charset=x" ≠ "" ∧
    detect_mime "Application/Octet-Stream; charset=x" "/file.pdf"
      = header_norm "Application/Octet-Stream; charset=x" ∧
    header_norm " " = "" ∧
    detect_mime " " "/file.pdf" = ext_sniff "/file.pdf" :=
  ⟨by decide,
   (C9_header_first "Application/Octet-Stream; charset=x" "/file.pdf").1 (by decide),
   by decide,
   (C9_header_first " " "/file.pdf").2 (by decide)⟩

theorem any_false_forall {α : Type} (l : List α) (p : α → Bool)
    (h : l.any p = false) : ∀ x ∈ l, p x = false := by
  induction l with
  | nil =>
    intro x hx
    exact absurd hx (List.not_mem_nil x)
  | cons a l ih =>
    intro x hx
    rw [List.any_cons] at h
    have hpa : p a = false := by
      cases hp : p a
      · rfl
      · rw [hp] at h
        simp at h
    have hl : l.any p = false := by
      cases hp : l.any p
      · rfl
      · rw [hp] at h
        simp at h
    rcases List.mem_cons.mp hx with hx | hx
    · rw [hx]
      exact hpa
    · exact ih hl x hx

/-- C2: a response body strictly larger than a non-zero max-doc-size is
discarded: fetch_and_process returns with the URL marked Visited and with
no disk write, no text write, no enqueue and no document record — and a
max-doc-size of 0 disables the cap entirely, so under it a body of any
size still reaches the disk write. -/
theorem C2_size_cap (O : Oracles) (shafn : List Nat → String) (url : String) (depth : Int)
    (db : DBState) (s : List (String × Int)) (od : String) (ct : String) (B : List Nat)
    (cap : Int) (hnv : is_visited db url = false) (hcap : cap ≠ 0)
    (hbig : (B.length : Int) > cap) :
    fetch_and_process O shafn crawl_enqueue url depth db s od
        (FetchResult.response 200 ct B) cap
      = ⟨mark_visited db url, s, [], [], []⟩ ∧
    is_visited (fetch_and_process O shafn crawl_enqueue url depth db s od
        (FetchResult.response 200 ct B) cap).db url = true ∧
    (fetch_and_process O shafn crawl_enqueue url depth db s od
        (FetchResult.response 200 ct B) cap).db.docs = db.docs ∧
    (∀ B2 ct2, has_sha db (shafn B2) = false →
      (fetch_and_process O shafn crawl_enqueue url depth db s od
          (FetchResult.response 200 ct2 B2) 0).raw_writes
        = [(stored_raw_path od url ct2 (shafn B2), B2)]) := by
  have heq := fp_oversize_eq O shafn crawl_enqueue url depth db s od ct B cap hnv hcap hbig
  refine ⟨heq, ?_, ?_, ?_⟩
  · rw [heq]
    exact is_visited_mark_self db url
  · rw [heq]
    exact mark_visited_docs db url
  · intro B2 ct2 hs2
    exact (fp_success_spec O shafn url depth db s od ct2 B2 0 hnv (by simp) hs2).2.1

/-- C2 witness: a 3-byte body against cap 2 is discarded with the URL
visited; the same call with cap 0 would store it. -/
theorem C2_size_cap_witness :
    is_visited ⟨[], [], []⟩ "http://a.com/f" = false ∧
    fetch_and_process emptyOracles digest_model crawl_enqueue "http://a.com/f" 0
        ⟨[], [], []⟩ [] "out" (FetchResult.response 200 "" [1, 2, 3]) 2
      = ⟨mark_visited ⟨[], [], []⟩ "http://a.com/f", [], [], [], []⟩ :=
  ⟨by decide,
   (C2_size_cap emptyOracles digest_model "http://a.com/f" 0 ⟨[], [], []⟩ [] "out" ""
     [1, 2, 3] 2 (by decide) (by decide) (by decide)).1⟩

/-- C10: the oversize guard is strict — a body whose length equals a
non-zero max-doc-size is not discarded: it is written to disk and produces
a document record keyed by its digest, while any strictly larger body is
discarded with only the visited mark. -/
theorem C10_exact_cap (O : Oracles) (shafn : List Nat → String) (url : String) (depth : Int)
    (db : DBState) (s : List (String × Int)) (od : String) (ct : String) (B : List Nat)
    (cap : Int) (hnv : is_visited db url = false) (hcapnz : cap ≠ 0)
    (hlen : (B.length : Int) = cap) (hsha : has_sha db (shafn B) = false) :
    (fetch_and_process O shafn crawl_enqueue url depth db s od
        (FetchResult.response 200 ct B) cap).raw_writes
      = [(stored_raw_path od url ct (shafn B), B)] ∧
    (∃ rec : DocRecord,
      (fetch_and_process O shafn crawl_enqueue url depth db s od
          (FetchResult.response 200 ct B) cap).db.docs = db.docs ++ [rec] ∧
      rec.sha256 = shafn B ∧ rec.bytes = B.length) ∧
    (∀ B2 ct2, (B2.length : Int) > cap →
      fetch_and_process O shafn crawl_enqueue url depth db s od
          (FetchResult.response 200 ct2 B2) cap
        = ⟨mark_visited db url, s, [], [], []⟩) := by
  have hcap : ¬(cap ≠ 0 ∧ (B.length : Int) > cap) := by
    intro hx
    rw [hlen] at hx
    omega
  obtain ⟨⟨rec, hdocs, hrsha, _, _, _, hrbytes, _⟩, hraw, _, _, _, _⟩ :=
    fp_success_spec O shafn url depth db s od ct B cap hnv hcap hsha
  refine ⟨hraw, ⟨rec, hdocs, hrsha, hrbytes⟩, ?_⟩
  intro B2 ct2 hbig
  exact fp_oversize_eq O shafn crawl_enqueue url depth db s od ct2 B2 cap hnv hcapnz hbig

/-- C10 witness: a 2-byte body at cap 2 is stored; a 3-byte body at cap 2
is discarded. -/
theorem C10_exact_cap_witness :
    is_visited ⟨[], [], []⟩ "http://a.com/f" = false ∧
    (fetch_and_process emptyOracles digest_model crawl_enqueue "http://a.com/f" 0
        ⟨[], [], []⟩ [] "out" (FetchResult.response 200 "" [1, 2]) 2).raw_writes
      = [(stored_raw_path "out" "http://a.com/f" "" (digest_model [1, 2]), [1, 2])] :=
  ⟨by decide,
   (C10_exact_cap emptyOracles digest_model "http://a.com/f" 0 ⟨[], [], []⟩ [] "out" ""
     [1, 2] 2 (by decide) (by decide) (by decide) (by decide)).1⟩

/-- C3: a fetch attempt ending in a transport failure (an exception such
as a timeout or refused connection) or a non-200 status marks the URL
Visited, produces no document record, writes nothing to disk, enqueues
nothing, and does not raise — and once visited, a later dispatch of the
same URL in the same run (any depth, any network outcome) is a no-op, so
the URL is never retried. -/
theorem C3_transport_failure (O : Oracles) (shafn : List Nat → String) (url : String)
    (depth : Int) (db : DBState) (s : List (String × Int)) (od : String) (res : FetchResult)
    (cap : Int) (d2 : Int) (s2 : List (String × Int)) (res2 : FetchResult) (cap2 : Int)
    (hnv : is_visited db url = false)
    (hres : res = FetchResult.failure ∨
      ∃ st ct B, res = FetchResult.response st ct B ∧ st ≠ 200) :
    fetch_and_process O shafn crawl_enqueue url depth db s od res cap
      = ⟨mark_visited db url, s, [], [], []⟩ ∧
    is_visited (fetch_and_process O shafn crawl_enqueue url depth db s od res cap).db url
      = true ∧
    (fetch_and_process O shafn crawl_enqueue url depth db s od res cap).db.docs = db.docs ∧
    fetch_and_process O shafn crawl_enqueue url d2
        (fetch_and_process O shafn crawl_enqueue url depth db s od res cap).db s2 od res2 cap2
      = ⟨(fetch_and_process O shafn crawl_enqueue url depth db s od res cap).db,
          s2, [], [], []⟩ := by
  have heq : fetch_and_process O shafn crawl_enqueue url depth db s od res cap
      = ⟨mark_visited db url, s, [], [], []⟩ := by
    rcases hres with hres | ⟨st, ct, B, hres, hst⟩
    · rw [hres]
      exact fp_failure_eq O shafn crawl_enqueue url depth db s od cap hnv
    · rw [hres]
      exact fp_non200_eq O shafn crawl_enqueue url depth db s od st ct B cap hnv hst
  have hvis : is_visited (fetch_and_process O shafn crawl_enqueue url depth db s od
      res cap).db url = true := by
    rw [heq]
    exact is_visited_mark_self db url
  refine ⟨heq, hvis, ?_, ?_⟩
  · rw [heq]
    exact mark_visited_docs db url
  · exact fp_visited_eq O shafn crawl_enqueue url d2 _ s2 od res2 cap2 hvis

/-- C3 witness: a timeout on a fresh URL marks it visited and a redispatch
is a no-op. -/
theorem C3_transport_failure_witness :
    is_visited ⟨[], [], []⟩ "http://a.com/f" = false ∧
    fetch_and_process emptyOracles digest_model crawl_enqueue "http://a.com/f" 1
        ⟨[], [], []⟩ [] "out" FetchResult.failure 0
      = ⟨mark_visited ⟨[], [], []⟩ "http://a.com/f", [], [], [], []⟩ :=
  ⟨by decide,
   (C3_transport_failure emptyOracles digest_model "http://a.com/f" 1 ⟨[], [], []⟩ []
     "out" FetchResult.failure 0 1 [] FetchResult.failure 0 (by decide)
     (Or.inl rfl)).1⟩

/-- C7 counterexample: the claim says identical bytes always resolve to
the same on-disk path, even from two different source URLs.  But the raw
path is namespaced by the URL domain and carries a URL-derived extension:
the same two bytes fetched from a.com as a .pdf and from b.com as .html
are written to two different paths. -/
theorem C7_counterexample :
    (fetch_and_process emptyOracles digest_model crawl_enqueue "http://a.com/f.pdf" 0
        ⟨[], [], []⟩ [] "out" (FetchResult.response 200 "" [104, 105]) 0).raw_writes
      = [("out/raw/a.com/ab.pdf", [104, 105])] ∧
    (fetch_and_process emptyOracles digest_model crawl_enqueue "http://b.com/f.html" 0
        ⟨[], [], []⟩ [] "out" (FetchResult.response 200 "" [104, 105]) 0).raw_writes
      = [("out/raw/b.com/ab.html", [104, 105])] ∧
    ("out/raw/a.com/ab.pdf" : String) ≠ "out/raw/b.com/ab.html" := by
  decide

/-- C7 (amended): the raw storage path is a function of the output root,
the URL netloc, the content digest and the chosen extension; storing the
same bytes twice yields the same raw path whenever the two URLs share a
netloc and the extension choice agrees (in particular for two stores from
the same URL), but identical bytes fetched from different domains or with
different extensions land on different paths. -/
theorem C7_path_stability (O : Oracles) (shafn : List Nat → String)
    (u1 u2 : String) (d1 d2 : Int) (db1 db2 : DBState)
    (s1 s2 : List (String × Int)) (od : String) (ct1 ct2 : String) (B : List Nat)
    (cap1 cap2 : Int)
    (hnv1 : is_visited db1 u1 = false) (hnv2 : is_visited db2 u2 = false)
    (hsha1 : has_sha db1 (shafn B) = false) (hsha2 : has_sha db2 (shafn B) = false)
    (hcap1 : ¬(cap1 ≠ 0 ∧ (B.length : Int) > cap1))
    (hcap2 : ¬(cap2 ≠ 0 ∧ (B.length : Int) > cap2))
    (hdom : (urlparse u1).netloc = (urlparse u2).netloc)
    (hext : chooseExt (lowerList (urlparse u1).path.data) (detect_mime ct1 (urlparse u1).path)
      = chooseExt (lowerList (urlparse u2).path.data) (detect_mime ct2 (urlparse u2).path)) :
    (fetch_and_process O shafn crawl_enqueue u1 d1 db1 s1 od
        (FetchResult.response 200 ct1 B) cap1).raw_writes
      = (fetch_and_process O shafn crawl_enqueue u2 d2 db2 s2 od
        (FetchResult.response 200 ct2 B) cap2).raw_writes := by
  have h1 := (fp_success_spec O shafn u1 d1 db1 s1 od ct1 B cap1 hnv1 hcap1 hsha1).2.1
  have h2 := (fp_success_spec O shafn u2 d2 db2 s2 od ct2 B cap2 hnv2 hcap2 hsha2).2.1
  rw [h1, h2]
  unfold stored_raw_path
  rw [hdom, hext]

/-- C7 (amended) witness: the same bytes stored from two same-domain .pdf
URLs land on the same raw path. -/
theorem C7_path_stability_witness :
    (fetch_and_process emptyOracles digest_model crawl_enqueue "http://a.com/x.pdf" 0
        ⟨[], [], []⟩ [] "out" (FetchResult.response 200 "" [104, 105]) 0).raw_writes
      = (fetch_and_process emptyOracles digest_model crawl_enqueue "http://a.com/y.pdf" 0
        ⟨[], [], []⟩ [] "out" (FetchResult.response 200 "" [104, 105]) 0).raw_writes :=
  C7_path_stability emptyOracles digest_model "http://a.com/x.pdf" "http://a.com/y.pdf" 0 0
    ⟨[], [], []⟩ ⟨[], [], []⟩ [] [] "out" "" "" [104, 105] 0 0
    (by decide) (by decide) (by decide) (by decide) (by decide) (by decide)
    (by decide) (by decide)

/-- C1: two successful fetches whose bodies are byte-identical leave
exactly one document record for that digest — the record of the first
writer, keyed by content digest, with the later duplicate detected via
has_sha and skipped — while both source URLs end up in Visited. -/
theorem C1_dedup (O : Oracles) (shafn : List Nat → String) (url1 url2 : String)
    (d1 d2 : Int) (db : DBState) (s1 s2 : List (String × Int)) (od : String)
    (ct1 ct2 : String) (B : List Nat) (cap : Int)
    (hnv1 : is_visited db url1 = false) (hnv2 : is_visited db url2 = false)
    (hsha : has_sha db (shafn B) = false)
    (hcap : ¬(cap ≠ 0 ∧ (B.length : Int) > cap)) :
    ((fetch_and_process O shafn crawl_enqueue url2 d2
        (fetch_and_process O shafn crawl_enqueue url1 d1 db s1 od
          (FetchResult.response 200 ct1 B) cap).db s2 od
        (FetchResult.response 200 ct2 B) cap).db.docs.filter
      (fun r => r.sha256 == shafn B)).length = 1 ∧
    (∀ r, r ∈ (fetch_and_process O shafn crawl_enqueue url2 d2
        (fetch_and_process O shafn crawl_enqueue url1 d1 db s1 od
          (FetchResult.response 200 ct1 B) cap).db s2 od
        (FetchResult.response 200 ct2 B) cap).db.docs →
      (r.sha256 == shafn B) = true → r.url = url1) ∧
    is_visited (fetch_and_process O shafn crawl_enqueue url2 d2
        (fetch_and_process O shafn crawl_enqueue url1 d1 db s1 od
          (FetchResult.response 200 ct1 B) cap).db s2 od
        (FetchResult.response 200 ct2 B) cap).db url1 = true ∧
    is_visited (fetch_and_process O shafn crawl_enqueue url2 d2
        (fetch_and_process O shafn crawl_enqueue url1 d1 db s1 od
          (FetchResult.response 200 ct1 B) cap).db s2 od
        (FetchResult.response 200 ct2 B) cap).db url2 = true := by
  set A := fetch_and_process O shafn crawl_enqueue url1 d1 db s1 od
    (FetchResult.response 200 ct1 B) cap with hA
  obtain ⟨⟨rec, hdocs1, hrsha, hrurl, _, _, _⟩, _, hvis1, _, _, _⟩ :=
    fp_success_spec O shafn url1 d1 db s1 od ct1 B cap hnv1 hcap hsha
  have hrb : (rec.sha256 == shafn B) = true := by
    rw [hrsha]
    exact beq_self_eq_true _
  have hforall : ∀ x ∈ db.docs, (x.sha256 == shafn B) = false :=
    any_false_forall db.docs _ hsha
  have hfilter0 : db.docs.filter (fun r => r.sha256 == shafn B) = [] :=
    any_false_filter_nil _ _ hsha
  have hfilter1 : A.db.docs.filter (fun r => r.sha256 == shafn B) = [rec] := by
    rw [hdocs1, List.filter_append, hfilter0, List.filter_cons]
    rw [hrb]
    simp
  have hvv1 : is_visited A.db url1 = true := by
    rw [is_visited_append A.db db url1 url1 hvis1]
    simp
  have hmemurl : ∀ r, r ∈ A.db.docs → (r.sha256 == shafn B) = true → r.url = url1 := by
    intro r hr hm
    rw [hdocs1] at hr
    rcases List.mem_append.mp hr with hr | hr
    · rw [hforall r hr] at hm
      simp at hm
    · have : r = rec := by simpa using hr
      rw [this, hrurl]
  by_cases hbe : (url2 == url1) = true
  · have hv2 : is_visited A.db url2 = true := by
      rw [is_visited_append A.db db url1 url2 hvis1, hbe]
      simp
    have hdb2 : (fetch_and_process O shafn crawl_enqueue url2 d2 A.db s2 od
        (FetchResult.response 200 ct2 B) cap).db = A.db := by
      rw [fp_visited_eq O shafn crawl_enqueue url2 d2 A.db s2 od
        (FetchResult.response 200 ct2 B) cap hv2]
    rw [hdb2]
    refine ⟨?_, hmemurl, hvv1, hv2⟩
    rw [hfilter1]
    rfl
  · have hbf : (url2 == url1) = false := by
      cases hx : url2 == url1
      · rfl
      · exact absurd hx hbe
    have hv2 : is_visited A.db url2 = false := by
      rw [is_visited_append A.db db url1 url2 hvis1, hnv2, hbf]
      rfl
    have hsha' : db.docs.any (fun r => r.sha256 == shafn B) = false := hsha
    have hsha2 : has_sha A.db (shafn B) = true := by
      show A.db.docs.any (fun r => r.sha256 == shafn B) = true
      rw [hdocs1, List.any_append, hsha']
      simp [hrb]
    have hdb2 : (fetch_and_process O shafn crawl_enqueue url2 d2 A.db s2 od
        (FetchResult.response 200 ct2 B) cap).db = mark_visited A.db url2 := by
      rw [fp_dup_eq O shafn crawl_enqueue url2 d2 A.db s2 od ct2 B cap hv2 hcap hsha2]
    rw [hdb2]
    have hmv : (mark_visited A.db url2).visited = A.db.visited ++ [url2] :=
      mark_visited_visited_of A.db url2 hv2
    refine ⟨?_, ?_, ?_, ?_⟩
    · rw [mark_visited_docs, hfilter1]
      rfl
    · intro r hr hm
      rw [mark_visited_docs] at hr
      exact hmemurl r hr hm
    · rw [is_visited_append _ A.db url2 url1 hmv, hvv1]
      rfl
    · exact is_visited_mark_self A.db url2

/-- C1 witness: two distinct fresh URLs fetched with the same two bytes
leave one record keyed to the digest and both URLs visited. -/
theorem C1_dedup_witness :
    ((fetch_and_process emptyOracles digest_model crawl_enqueue "http://b.com/y" 0
        (fetch_and_process emptyOracles digest_model crawl_enqueue "http://a.com/x" 0
          ⟨[], [], []⟩ [] "out" (FetchResult.response 200 "" [104, 105]) 0).db [] "out"
        (FetchResult.response 200 "" [104, 105]) 0).db.docs.filter
      (fun r => r.sha256 == digest_model [104, 105])).length = 1 :=
  (C1_dedup emptyOracles digest_model "http://a.com/x" "http://b.com/y" 0 0 ⟨[], [], []⟩
    [] [] "out" "" "" [104, 105] 0 (by decide) (by decide) (by decide) (by decide)).1

/-- C5: link discovery emits (link, depth - 1) pairs only from an entry
whose depth is strictly positive and only for links not already Visited,
so depth strictly decreases along every discovery chain and a depth-0
entry never expands; consequently the sequential crawl loop over a finite
link-closed universe U terminates — crawl_phi many iterations drain the
frontier completely. -/
theorem C5_depth_termination (O : Oracles) (shafn : List Nat → String)
    (net : String → FetchResult) (od : String) (cap : Int)
    (url : String) (depth : Int) (db : DBState) (s : List (String × Int)) (res : FetchResult)
    (U : List String) (db0 : DBState)
    (hU : ∀ r, r ∈ db0.frontier → r.1 ∈ U)
    (hcl : ∀ u, u ∈ U → ∀ l, l ∈ linksOf O net u → l ∈ U) :
    (∀ p, p ∈ (fetch_and_process O shafn crawl_enqueue url depth db s od res cap).calls →
      p.2 = depth - 1 ∧ 0 < depth ∧ p.1 ∈ resLinks O url res ∧
        is_visited db p.1 = false) ∧
    (depth ≤ 0 →
      (fetch_and_process O shafn crawl_enqueue url depth db s od res cap).calls = []) ∧
    (seq_run O shafn net od cap (crawl_phi O net U db0) db0).frontier = [] := by
  refine ⟨fp_calls_spec O shafn url depth db s od res cap, ?_, ?_⟩
  · intro hd0
    cases hc : (fetch_and_process O shafn crawl_enqueue url depth db s od res cap).calls with
    | nil => rfl
    | cons p ps =>
      have hp := fp_calls_spec O shafn url depth db s od res cap p
        (by rw [hc]; exact List.mem_cons_self p ps)
      exact absurd hp.2.1 (by omega)
  · exact seq_run_frontier_empty O shafn net od cap U hcl (crawl_phi O net U db0) db0 hU
      (le_refl _)

/-- C5 witness: one seed page at depth 1 linking to a second URL; the
emitted pair carries depth 0, and the sequential crawl drains the frontier
within the potential bound. -/
theorem C5_depth_termination_witness :
    (seq_run sched_O digest_model sched_net "out" 0
      (crawl_phi sched_O sched_net ["http://a.com/p", "http://a.com/q"]
        ⟨[("http://a.com/p", 1)], [], []⟩)
      ⟨[("http://a.com/p", 1)], [], []⟩).frontier = [] :=
  (C5_depth_termination sched_O digest_model sched_net "out" 0 "http://a.com/p" 1
    ⟨[], [], []⟩ [] (FetchResult.response 200 "text/html" [1])
    ["http://a.com/p", "http://a.com/q"] ⟨[("http://a.com/p", 1)], [], []⟩
    (by decide) (by decide)).2.2

theorem sched_run_nil (O : Oracles) (shafn : List Nat → String) (net : String → FetchResult)
    (od : String) (cap : Int) (st : SchedState) :
    sched_run O shafn net od cap st [] = st := rfl

theorem sched_run_cons (O : Oracles) (shafn : List Nat → String) (net : String → FetchResult)
    (od : String) (cap : Int) (st : SchedState) (e : SEvent) (es : List SEvent) :
    sched_run O shafn net od cap st (e :: es)
      = sched_run O shafn net od cap (sched_step O shafn net od cap st e) es := rfl

theorem sched_step_done (O : Oracles) (shafn : List Nat → String) (net : String → FetchResult)
    (od : String) (cap : Int) (st : SchedState) (e : SEvent) (h : st.phase = Phase.done) :
    sched_step O shafn net od cap st e = st := by
  unfold sched_step
  rw [if_pos h]

theorem sched_run_done (O : Oracles) (shafn : List Nat → String) (net : String → FetchResult)
    (od : String) (cap : Int) :
    ∀ (es : List SEvent) (st : SchedState), st.phase = Phase.done →
      sched_run O shafn net od cap st es = st := by
  intro es
  induction es with
  | nil =>
    intro st _
    rfl
  | cons e es ih =>
    intro st h
    rw [sched_run_cons, sched_step_done O shafn net od cap st e h]
    exact ih st h

theorem sched_step_take_eq (O : Oracles) (shafn : List Nat → String)
    (net : String → FetchResult) (od : String) (cap : Int) (st : SchedState) (i : Nat)
    (h : ¬ st.phase = Phase.done) :
    sched_step O shafn net od cap st (SEvent.take i)
      = match st.workers.get? i, st.queue with
        | some WStatus.idle, row :: rest =>
          { st with queue := rest, workers := st.workers.set i (WStatus.inflight row.1 row.2) }
        | _, _ => st := by
  unfold sched_step
  rw [if_neg h]

theorem sched_step_finish_eq (O : Oracles) (shafn : List Nat → String)
    (net : String → FetchResult) (od : String) (cap : Int) (st : SchedState) (i : Nat)
    (h : ¬ st.phase = Phase.done) :
    sched_step O shafn net od cap st (SEvent.finish i)
      = match st.workers.get? i with
        | some (WStatus.inflight url d) =>
          let out := fetch_and_process O shafn crawl_enqueue url d st.db st.queue od
            (net url) cap
          { st with db := out.db, queue := out.s, workers := st.workers.set i WStatus.idle }
        | _ => st := by
  unfold sched_step
  rw [if_neg h]

theorem sched_step_poll_eq (O : Oracles) (shafn : List Nat → String)
    (net : String → FetchResult) (od : String) (cap : Int) (st : SchedState)
    (h : ¬ st.phase = Phase.done) :
    sched_step O shafn net od cap st SEvent.poll
      = if st.phase = Phase.looping then
          if st.queue.isEmpty then
            match pop_frontier st.db with
            | some (row, db2) => { st with db := db2, queue := st.queue ++ [row] }
            | none => { st with phase := Phase.joining }
          else st
        else st := by
  unfold sched_step
  rw [if_neg h]

theorem sched_step_join_eq (O : Oracles) (shafn : List Nat → String)
    (net : String → FetchResult) (od : String) (cap : Int) (st : SchedState)
    (h : ¬ st.phase = Phase.done) :
    sched_step O shafn net od cap st SEvent.join
      = if st.phase = Phase.joining ∧ st.queue.isEmpty ∧ st.workers.all
          (fun w => w == WStatus.idle) then { st with phase := Phase.done }
        else st := by
  unfold sched_step
  rw [if_neg h]

theorem sched_step_to_done (O : Oracles) (shafn : List Nat → String)
    (net : String → FetchResult) (od : String) (cap : Int) (st : SchedState) (e : SEvent)
    (h : ¬ st.phase = Phase.done)
    (hd : (sched_step O shafn net od cap st e).phase = Phase.done) :
    (sched_step O shafn net od cap st e).queue = [] ∧
    (sched_step O shafn net od cap st e).workers.all (fun w => w == WStatus.idle) = true := by
  cases e with
  | take i =>
    exfalso
    rw [sched_step_take_eq O shafn net od cap st i h] at hd
    split at hd
    · exact h hd
    · exact h hd
  | finish i =>
    exfalso
    rw [sched_step_finish_eq O shafn net od cap st i h] at hd
    split at hd
    · exact h hd
    · exact h hd
  | poll =>
    exfalso
    rw [sched_step_poll_eq O shafn net od cap st h] at hd
    by_cases hl : st.phase = Phase.looping
    · rw [if_pos hl] at hd
      by_cases hq : st.queue.isEmpty = true
      · rw [if_pos hq] at hd
        cases hp : pop_frontier st.db with
        | some v =>
          obtain ⟨row, db2⟩ := v
          rw [hp] at hd
          exact h hd
        | none =>
          rw [hp] at hd
          have hjd : Phase.joining = Phase.done := hd
          exact absurd hjd (by decide)
      · rw [if_neg hq] at hd
        exact h hd
    · rw [if_neg hl] at hd
      exact h hd
  | join =>
    rw [sched_step_join_eq O shafn net od cap st h] at hd ⊢
    by_cases hc : st.phase = Phase.joining ∧ st.queue.isEmpty = true ∧
        st.workers.all (fun w => w == WStatus.idle) = true
    · rw [if_pos hc] at hd ⊢
      exact ⟨List.isEmpty_iff.mp hc.2.1, hc.2.2⟩
    · rw [if_neg hc] at hd
      exact absurd hd h

theorem sched_run_to_done (O : Oracles) (shafn : List Nat → String)
    (net : String → FetchResult) (od : String) (cap : Int) :
    ∀ (es : List SEvent) (st : SchedState), ¬ st.phase = Phase.done →
      (sched_run O shafn net od cap st es).phase = Phase.done →
      (sched_run O shafn net od cap st es).queue = [] ∧
      (sched_run O shafn net od cap st es).workers.all
        (fun w => w == WStatus.idle) = true := by
  intro es
  induction es with
  | nil =>
    intro st h hd
    exact absurd hd h
  | cons e es ih =>
    intro st h hd
    rw [sched_run_cons] at hd ⊢
    by_cases h1 : (sched_step O shafn net od cap st e).phase = Phase.done
    · have hfr := sched_run_done O shafn net od cap es _ h1
      rw [hfr] at hd ⊢
      exact sched_step_to_done O shafn net od cap st e h h1
    · exact ih _ h1 hd

theorem sched_poll_break (O : Oracles) (shafn : List Nat → String)
    (net : String → FetchResult) (od : String) (cap : Int) (st : SchedState)
    (hl : st.phase = Phase.looping)
    (hj : (sched_step O shafn net od cap st SEvent.poll).phase = Phase.joining) :
    st.queue = [] ∧ pop_frontier st.db = none := by
  have hnd : ¬ st.phase = Phase.done := by
    rw [hl]
    decide
  rw [sched_step_poll_eq O shafn net od cap st hnd, if_pos hl] at hj
  by_cases hq : st.queue.isEmpty = true
  · rw [if_pos hq] at hj
    cases hp : pop_frontier st.db with
    | some v =>
      obtain ⟨row, db2⟩ := v
      rw [hp] at hj
      exfalso
      have h2 : st.phase = Phase.joining := hj
      rw [hl] at h2
      exact absurd h2 (by decide)
    | none =>
      exact ⟨List.isEmpty_iff.mp hq, rfl⟩
  · rw [if_neg hq] at hj
    exfalso
    have h2 : st.phase = Phase.joining := hj
    rw [hl] at h2
    exact absurd h2 (by decide)

/-- C8 counterexample: the claim says completion is declared only when
the queue is empty, a further frontier pull yields nothing, and no worker
holds an in-flight task.  In the modelled scheduler, after the worker
takes the only seed the poll iteration sees an empty queue and an empty
frontier and breaks into the joining phase while the worker is still
in-flight; moreover, by the time queue.join declares the crawl done, the
link discovered by that in-flight worker has left a frontier row behind,
so a further frontier pull would yield work. -/
theorem C8_counterexample :
    (sched_run sched_O digest_model sched_net "out" 0 sched_init
      [SEvent.take 0, SEvent.poll]).phase = Phase.joining ∧
    (sched_run sched_O digest_model sched_net "out" 0 sched_init
      [SEvent.take 0, SEvent.poll]).workers
      = [WStatus.inflight "http://a.com/p" 1] ∧
    (sched_run sched_O digest_model sched_net "out" 0 sched_init
      [SEvent.take 0, SEvent.poll, SEvent.finish 0, SEvent.take 0, SEvent.finish 0,
        SEvent.join]).phase = Phase.done ∧
    (sched_run sched_O digest_model sched_net "out" 0 sched_init
      [SEvent.take 0, SEvent.poll, SEvent.finish 0, SEvent.take 0, SEvent.finish 0,
        SEvent.join]).db.frontier = [("http://a.com/q", 0)] := by
  decide

/-- C8 (amended): the polling loop leaves the looping phase exactly when
the in-memory queue is empty and one further pull from the frontier
yields nothing, regardless of in-flight work; the crawl then returns only
after queue.join, so whenever the run reaches the done phase the queue is
empty and every worker is idle — but the frontier may be non-empty again
at that point. -/
theorem C8_completion (O : Oracles) (shafn : List Nat → String) (net : String → FetchResult)
    (od : String) (cap : Int) (es : List SEvent) (st : SchedState)
    (hnd : ¬ st.phase = Phase.done) :
    ((sched_run O shafn net od cap st es).phase = Phase.done →
      (sched_run O shafn net od cap st es).queue = [] ∧
      (sched_run O shafn net od cap st es).workers.all
        (fun w => w == WStatus.idle) = true) ∧
    (st.phase = Phase.looping →
      (sched_step O shafn net od cap st SEvent.poll).phase = Phase.joining →
      st.queue = [] ∧ pop_frontier st.db = none) :=
  ⟨fun hd => sched_run_to_done O shafn net od cap es st hnd hd,
   fun hl hj => sched_poll_break O shafn net od cap st hl hj⟩

/-- C8 (amended) witness: on the concrete trace of the scenario the run
reaches done with an empty queue and an idle worker. -/
theorem C8_completion_witness :
    ¬ sched_init.phase = Phase.done ∧
    ((sched_run sched_O digest_model sched_net "out" 0 sched_init
        [SEvent.take 0, SEvent.poll, SEvent.finish 0, SEvent.take 0, SEvent.finish 0,
          SEvent.join]).queue = [] ∧
      (sched_run sched_O digest_model sched_net "out" 0 sched_init
        [SEvent.take 0, SEvent.poll, SEvent.finish 0, SEvent.take 0, SEvent.finish 0,
          SEvent.join]).workers.all (fun w => w == WStatus.idle) = true) :=
  ⟨by decide,
   (C8_completion sched_O digest_model sched_net "out" 0
     [SEvent.take 0, SEvent.poll, SEvent.finish 0, SEvent.take 0, SEvent.finish 0,
       SEvent.join] sched_init (by decide)).1 (by decide)⟩
